import Mathlib

/-!
Shallow embedding of the pending-edit ledger, the batch-commit protocol,
the quick-edit input handling and the filter-URL synchronizer of the Cash
admin panel.  The definitions below are translated from the route modules
src/app/routes/catalogo.tsx, src/app/routes/inventario.tsx and
src/app/routes/productos.tsx.  Client state held in React hooks is made
explicit as record types; JS objects keyed by product identifiers are
embedded as association lists kept in ascending key order, which is the
iteration order Object.entries gives to integer-like keys.
-/

namespace Cash

/-- A product row as produced by the loaders: the product identifier, the
optional title and color, and the joined inventory quantity (a product with
no inventory record defaults to quantity 0, per the loader join). -/
structure ProductRow where
  id : Nat
  title : Option String
  color : Option String
  cantidad : Int
deriving DecidableEq

/-- Assignment `obj[k] = v` on a JS object embedded as an association list in
ascending key order (the Object.entries iteration order for integer keys). -/
def objInsert : List (Nat × Int) → Nat → Int → List (Nat × Int)
  | [], k, v => [(k, v)]
  | (k1, v1) :: rest, k, v =>
    if k < k1 then (k, v) :: (k1, v1) :: rest
    else if k = k1 then (k, v) :: rest
    else (k1, v1) :: objInsert rest k v

/-- Property read `obj[k]` on the embedded object; an absent key reads as
undefined, embedded as none. -/
def objGet : List (Nat × Int) → Nat → Option Int
  | [], _ => none
  | (k1, v1) :: rest, k => if k = k1 then some v1 else objGet rest k

/-- The JS `delete obj[k]` operator on the embedded object. -/
def objDelete (l : List (Nat × Int)) (k : Nat) : List (Nat × Int) :=
  l.filter (fun e => e.1 != k)

theorem objGet_insert_self (l : List (Nat × Int)) (k : Nat) (v : Int) :
    objGet (objInsert l k v) k = some v := by
  induction l with
  | nil => simp [objInsert, objGet]
  | cons hd tl ih =>
    obtain ⟨k1, v1⟩ := hd
    by_cases h1 : k < k1
    · simp [objInsert, h1, objGet]
    · by_cases h2 : k = k1
      · simp [objInsert, h1, h2, objGet]
      · simp [objInsert, h1, h2, objGet, ih]

theorem objGet_insert_ne (l : List (Nat × Int)) (k k2 : Nat) (v : Int)
    (h : k2 ≠ k) : objGet (objInsert l k v) k2 = objGet l k2 := by
  induction l with
  | nil => simp [objInsert, objGet, h]
  | cons hd tl ih =>
    obtain ⟨k1, v1⟩ := hd
    by_cases h1 : k < k1
    · simp [objInsert, h1, objGet, h]
    · by_cases h2 : k = k1
      · subst h2
        simp [objInsert, h1, objGet, h]
      · by_cases h3 : k2 = k1
        · simp [objInsert, h1, h2, objGet, h3]
        · simp [objInsert, h1, h2, objGet, h3, ih]

theorem objGet_delete_self (l : List (Nat × Int)) (k : Nat) :
    objGet (objDelete l k) k = none := by
  induction l with
  | nil => rfl
  | cons hd tl ih =>
    obtain ⟨k1, v1⟩ := hd
    by_cases h : k1 = k
    · simpa [objDelete, List.filter_cons, h] using ih
    · have hk : k ≠ k1 := fun he => h he.symm
      simpa [objDelete, List.filter_cons, bne_iff_ne, h, objGet, hk] using ih

theorem objGet_delete_ne (l : List (Nat × Int)) (k k2 : Nat)
    (h : k2 ≠ k) : objGet (objDelete l k) k2 = objGet l k2 := by
  induction l with
  | nil => rfl
  | cons hd tl ih =>
    obtain ⟨k1, v1⟩ := hd
    by_cases h1 : k1 = k
    · subst h1
      simpa [objDelete, List.filter_cons, objGet, h] using ih
    · by_cases h2 : k2 = k1
      · simp [objDelete, List.filter_cons, bne_iff_ne, h1, objGet, h2]
      · simpa [objDelete, List.filter_cons, bne_iff_ne, h1, objGet, h2] using ih

/-!  Client state of the catalogo.tsx inventory editor: the loader data
(`products`, the server baseline), the per-row rendered values
(`inputValues`) and the pending-edit ledger (`pendingChanges`). -/

/-- React state of the catalogo.tsx component: `products` from
useLoaderData, plus the `inputValues` and `pendingChanges` useState maps. -/
structure CatalogoState where
  products : List ProductRow
  inputValues : List (Nat × Int)
  pendingChanges : List (Nat × Int)
deriving DecidableEq

/-- The value rendered for a product row in catalogo.tsx:
`inputValues[product.id] ?? product.cantidad`. -/
def displayedValue (s : CatalogoState) (p : ProductRow) : Int :=
  (objGet s.inputValues p.id).getD p.cantidad

/-- The baseline looked up by handleInputChange:
`products.find(p => p.id === productId)?.cantidad`. -/
def baselineOf (products : List ProductRow) (productId : Nat) : Option Int :=
  (products.find? (fun p => p.id == productId)).map (fun p => p.cantidad)

/-- handleInputChange of catalogo.tsx: writes the typed value into
`inputValues`; records it in `pendingChanges` when it differs from the
original loader quantity and deletes the entry otherwise.  The source
condition `newValue !== original` compares against a possibly undefined
original, which is embedded as the inequality on Option. -/
def handleInputChange (s : CatalogoState) (productId : Nat) (newValue : Int) :
    CatalogoState :=
  { s with
    inputValues := objInsert s.inputValues productId newValue,
    pendingChanges :=
      if some newValue ≠ baselineOf s.products productId then
        objInsert s.pendingChanges productId newValue
      else
        objDelete s.pendingChanges productId }

/-- The seeding loop of the catalogo.tsx effects: an object built by
`products.forEach(p => initialValues[p.id] = p.cantidad)`. -/
def seedInputValues (products : List ProductRow) : List (Nat × Int) :=
  products.foldl (fun acc p => objInsert acc p.id p.cantidad) []

/-- The catalogo.tsx component state right after the initializing effect
ran on freshly loaded products: inputs seeded from the loader data and an
empty pending ledger. -/
def initCatalogoState (products : List ProductRow) : CatalogoState :=
  { products := products
    inputValues := seedInputValues products
    pendingChanges := [] }

/-- A sequence of handleInputChange calls, applied left to right. -/
def applyEdits (s : CatalogoState) : List (Nat × Int) → CatalogoState
  | [] => s
  | e :: rest => applyEdits (handleInputChange s e.1 e.2) rest

/-- React state of the inventario.tsx component relevant to quick edits:
`products` from useLoaderData and the `pendingChanges` useState map. -/
structure InventarioState where
  products : List ProductRow
  pendingChanges : List (Nat × Int)
deriving DecidableEq

/-- handleQuickEdit of inventario.tsx: unconditionally stores the typed
value in `pendingChanges` (no comparison against the baseline). -/
def handleQuickEdit (s : InventarioState) (productId : Nat) (newValue : Int) :
    InventarioState :=
  { s with pendingChanges := objInsert s.pendingChanges productId newValue }

/-- The value rendered for a row in inventario.tsx:
`pendingChanges[product.id] !== undefined ? pending : product.cantidad`. -/
def displayedValueQuick (s : InventarioState) (p : ProductRow) : Int :=
  (objGet s.pendingChanges p.id).getD p.cantidad

theorem find_eq_of_mem_nodup (products : List ProductRow) (p : ProductRow)
    (hnodup : (products.map (fun q => q.id)).Nodup) (hmem : p ∈ products) :
    products.find? (fun q => q.id == p.id) = some p := by
  induction products with
  | nil => cases hmem
  | cons hd tl ih =>
    rw [List.map_cons, List.nodup_cons] at hnodup
    rcases List.mem_cons.mp hmem with rfl | hmem2
    · simp [List.find?]
    · have hne : hd.id ≠ p.id := by
        intro he
        exact hnodup.1 (he ▸ List.mem_map.mpr ⟨p, hmem2, rfl⟩)
      exact (List.find?_cons_of_neg _ (by simpa using hne)).trans
        (ih hnodup.2 hmem2)

theorem id_inj_of_nodup (products : List ProductRow) (p q : ProductRow)
    (hnodup : (products.map (fun r => r.id)).Nodup)
    (hp : p ∈ products) (hq : q ∈ products) (h : p.id = q.id) : p = q := by
  have h1 := find_eq_of_mem_nodup products p hnodup hp
  have h2 := find_eq_of_mem_nodup products q hnodup hq
  rw [h] at h1
  exact Option.some.inj (h1.symm.trans h2)

theorem objGet_foldl_insert_of_not_mem (l : List ProductRow)
    (acc : List (Nat × Int)) (k : Nat) (h : k ∉ l.map (fun p => p.id)) :
    objGet (l.foldl (fun a p => objInsert a p.id p.cantidad) acc) k =
      objGet acc k := by
  induction l generalizing acc with
  | nil => rfl
  | cons hd tl ih =>
    rw [List.map_cons] at h
    have hk : k ≠ hd.id := fun he => h (he ▸ List.mem_cons_self _ _)
    have htl : k ∉ tl.map (fun p => p.id) := fun hm => h (List.mem_cons_of_mem _ hm)
    calc objGet ((hd :: tl).foldl (fun a p => objInsert a p.id p.cantidad) acc) k
        = objGet (objInsert acc hd.id hd.cantidad) k := ih _ htl
      _ = objGet acc k := objGet_insert_ne _ _ _ _ hk

theorem objGet_seed_aux (products : List ProductRow) (acc : List (Nat × Int))
    (p : ProductRow) (hnodup : (products.map (fun q => q.id)).Nodup)
    (hmem : p ∈ products) :
    objGet (products.foldl (fun a q => objInsert a q.id q.cantidad) acc) p.id =
      some p.cantidad := by
  induction products generalizing acc with
  | nil => cases hmem
  | cons hd tl ih =>
    rw [List.map_cons, List.nodup_cons] at hnodup
    rcases List.mem_cons.mp hmem with rfl | hmem2
    · have hnot : p.id ∉ tl.map (fun q => q.id) := hnodup.1
      calc objGet ((p :: tl).foldl (fun a q => objInsert a q.id q.cantidad) acc) p.id
          = objGet (objInsert acc p.id p.cantidad) p.id :=
            objGet_foldl_insert_of_not_mem tl _ _ hnot
        _ = some p.cantidad := objGet_insert_self _ _ _
    · exact ih _ hnodup.2 hmem2

theorem objGet_seed (products : List ProductRow) (p : ProductRow)
    (hnodup : (products.map (fun q => q.id)).Nodup) (hmem : p ∈ products) :
    objGet (seedInputValues products) p.id = some p.cantidad :=
  objGet_seed_aux products [] p hnodup hmem

/-- Diff invariant of the catalogo.tsx ledger: `pendingChanges` holds
exactly the identifiers of products whose rendered value differs from the
loader baseline. -/
def DiffInv (s : CatalogoState) : Prop :=
  ∀ id : Nat, objGet s.pendingChanges id ≠ none ↔
    ∃ p ∈ s.products, p.id = id ∧ displayedValue s p ≠ p.cantidad

theorem applyEdits_products (edits : List (Nat × Int)) (s : CatalogoState) :
    (applyEdits s edits).products = s.products := by
  induction edits generalizing s with
  | nil => rfl
  | cons e rest ih => exact ih _

theorem DiffInv_handleInputChange (s : CatalogoState) (editId : Nat) (v : Int)
    (hnodup : (s.products.map (fun q => q.id)).Nodup)
    (hid : ∃ p ∈ s.products, p.id = editId)
    (hinv : DiffInv s) : DiffInv (handleInputChange s editId v) := by
  obtain ⟨p0, hp0mem, hp0id⟩ := hid
  have hfind : s.products.find? (fun q => q.id == editId) = some p0 := by
    have h := find_eq_of_mem_nodup s.products p0 hnodup hp0mem
    rwa [hp0id] at h
  have hbase : baselineOf s.products editId = some p0.cantidad := by
    unfold baselineOf
    rw [hfind]
    rfl
  intro id
  by_cases hcase : id = editId
  · subst hcase
    by_cases hv : v = p0.cantidad
    · have hpend : (handleInputChange s id v).pendingChanges
          = objDelete s.pendingChanges id := by
        simp [handleInputChange, hbase, hv]
      apply iff_of_false
      · rw [hpend, objGet_delete_self]
        simp
      · rintro ⟨p, hpmem2, hpid2, hne⟩
        apply hne
        have hpp0 : p = p0 :=
          id_inj_of_nodup s.products p p0 hnodup hpmem2 hp0mem
            (hpid2.trans hp0id.symm)
        show (objGet (objInsert s.inputValues id v) p.id).getD p.cantidad
          = p.cantidad
        rw [hpid2, objGet_insert_self, hpp0, hv]
        rfl
    · have hpend : (handleInputChange s id v).pendingChanges
          = objInsert s.pendingChanges id v := by
        simp [handleInputChange, hbase, hv]
      apply iff_of_true
      · rw [hpend, objGet_insert_self]
        simp
      · refine ⟨p0, hp0mem, hp0id, ?_⟩
        show (objGet (objInsert s.inputValues id v) p0.id).getD p0.cantidad
          ≠ p0.cantidad
        rw [hp0id, objGet_insert_self]
        simpa using hv
  · have hpendget : objGet (handleInputChange s editId v).pendingChanges id
        = objGet s.pendingChanges id := by
      show objGet (if some v ≠ baselineOf s.products editId then
          objInsert s.pendingChanges editId v
        else objDelete s.pendingChanges editId) id = _
      split
      · exact objGet_insert_ne _ _ _ _ hcase
      · exact objGet_delete_ne _ _ _ hcase
    have hdispeq : ∀ p : ProductRow, p.id = id →
        displayedValue (handleInputChange s editId v) p = displayedValue s p := by
      intro p hpid
      have hne : p.id ≠ editId := by
        rw [hpid]
        exact hcase
      show (objGet (objInsert s.inputValues editId v) p.id).getD p.cantidad = _
      rw [objGet_insert_ne _ _ _ _ hne]
      rfl
    rw [show (objGet (handleInputChange s editId v).pendingChanges id ≠ none)
        = (objGet s.pendingChanges id ≠ none) from by rw [hpendget]]
    constructor
    · intro h
      obtain ⟨p, hpmem2, hpid2, hne⟩ := (hinv id).mp h
      exact ⟨p, hpmem2, hpid2, by rw [hdispeq p hpid2]; exact hne⟩
    · rintro ⟨p, hpmem2, hpid2, hne⟩
      refine (hinv id).mpr ⟨p, hpmem2, hpid2, ?_⟩
      rw [← hdispeq p hpid2]
      exact hne

theorem DiffInv_applyEdits (edits : List (Nat × Int)) (s : CatalogoState)
    (hnodup : (s.products.map (fun q => q.id)).Nodup)
    (hids : ∀ e ∈ edits, ∃ p ∈ s.products, p.id = e.1)
    (hinv : DiffInv s) : DiffInv (applyEdits s edits) := by
  induction edits generalizing s with
  | nil => exact hinv
  | cons e rest ih =>
    have he := hids e (List.mem_cons_self _ _)
    exact ih (handleInputChange s e.1 e.2) hnodup
      (fun e2 he2 => hids e2 (List.mem_cons_of_mem _ he2))
      (DiffInv_handleInputChange s e.1 e.2 hnodup he hinv)

theorem DiffInv_init (products : List ProductRow)
    (hnodup : (products.map (fun q => q.id)).Nodup) :
    DiffInv (initCatalogoState products) := by
  intro id
  apply iff_of_false
  · simp [initCatalogoState, objGet]
  · rintro ⟨p, hpmem, hpid, hne⟩
    apply hne
    show (objGet (seedInputValues products) p.id).getD p.cantidad = p.cantidad
    rw [objGet_seed products p hnodup hpmem]
    rfl

/-- C1 (amended): for the catalogo.tsx quick-edit handler
(handleInputChange), after any sequence of quick-edit calls starting from
freshly seeded state, `pendingChanges` contains exactly the product
identifiers whose displayed value differs from the loader baseline, and no
others; in particular a call recording a value equal to the baseline
deletes the pending entry.  (The inventario.tsx handler handleQuickEdit
does not satisfy this; see the counterexample.) -/
theorem catalogo_pending_diff_invariant (products : List ProductRow)
    (edits : List (Nat × Int))
    (hnodup : (products.map (fun q => q.id)).Nodup)
    (hids : ∀ e ∈ edits, ∃ p ∈ products, p.id = e.1) :
    ∀ id : Nat,
      objGet (applyEdits (initCatalogoState products) edits).pendingChanges id
          ≠ none ↔
        ∃ p ∈ products, p.id = id ∧
          displayedValue (applyEdits (initCatalogoState products) edits) p
            ≠ p.cantidad := by
  have h := DiffInv_applyEdits edits (initCatalogoState products)
    hnodup hids (DiffInv_init products hnodup)
  intro id
  have h2 := h id
  rwa [applyEdits_products] at h2

/-- Witness for C1: the invariant evaluated on a concrete two-product
ledger after editing product 1, reverting it, and editing product 2. -/
theorem catalogo_pending_diff_invariant_witness :
    ((objGet (applyEdits
        (initCatalogoState [⟨1, none, none, 5⟩, ⟨2, none, none, 3⟩])
        [(1, 7), (1, 5), (2, 4)]).pendingChanges 2 ≠ none) ↔
      ∃ p ∈ ([⟨1, none, none, 5⟩, ⟨2, none, none, 3⟩] : List ProductRow),
        p.id = 2 ∧
        displayedValue (applyEdits
          (initCatalogoState [⟨1, none, none, 5⟩, ⟨2, none, none, 3⟩])
          [(1, 7), (1, 5), (2, 4)]) p ≠ p.cantidad) ∧
    (applyEdits (initCatalogoState [⟨1, none, none, 5⟩, ⟨2, none, none, 3⟩])
        [(1, 7), (1, 5), (2, 4)]).pendingChanges = [(2, 4)] :=
  ⟨catalogo_pending_diff_invariant _ _ (by decide) (by decide) 2, by decide⟩

/-- Counterexample to C1 as stated: the inventario.tsx quick-edit handler
(handleQuickEdit) stores a value equal to the baseline instead of deleting
the entry, so after the single call setValue(1, baseline) the pending map
holds identifier 1 even though its displayed value equals the baseline. -/
theorem quickEdit_revert_retains_pending :
    displayedValueQuick
        (handleQuickEdit ⟨[⟨1, none, none, 5⟩], []⟩ 1 5) ⟨1, none, none, 5⟩
      = (⟨1, none, none, 5⟩ : ProductRow).cantidad ∧
    objGet (handleQuickEdit ⟨[⟨1, none, none, 5⟩], []⟩ 1 5).pendingChanges 1
      = some 5 := by
  constructor <;> rfl

/-!  Batch commit: serialization of the pending ledger into write
requests, the server actions, and the client reaction to the response. -/

/-- One POST issued through fetcher.submit, carrying the serialized
productId/cantidad pairs of its body. -/
structure BatchRequest where
  changes : List (Nat × Int)
deriving DecidableEq

/-- handleSaveAll of catalogo.tsx: serializes all of `pendingChanges`
(Object.entries order) into one JSON array and issues a single
fetcher.submit call with it. -/
def catalogoSaveAll (pendingChanges : List (Nat × Int)) : List BatchRequest :=
  [⟨pendingChanges.map (fun e => (e.1, e.2))⟩]

/-- handleSaveAll of inventario.tsx: iterates Object.entries of
`pendingChanges` and issues one fetcher.submit call per entry, each
carrying a single productId/cantidad pair. -/
def inventarioSaveAll (pendingChanges : List (Nat × Int)) : List BatchRequest :=
  pendingChanges.map (fun e => ⟨[(e.1, e.2)]⟩)

/-- C2 (amended): for every non-empty pending map, the catalogo.tsx commit
handler issues exactly one write request whose body holds exactly one
productId/quantity pair per pending entry, in ledger iteration order, and
no additional requests.  (The inventario.tsx handler instead issues one
request per entry; see the counterexample.) -/
theorem catalogo_saveAll_single_batch (pending : List (Nat × Int))
    (hne : pending ≠ []) :
    (catalogoSaveAll pending).length = 1 ∧
    ∀ r ∈ catalogoSaveAll pending, r.changes = pending := by
  refine ⟨rfl, ?_⟩
  intro r hr
  simp only [catalogoSaveAll, List.mem_singleton] at hr
  subst hr
  show pending.map (fun e => (e.1, e.2)) = pending
  clear hne
  induction pending with
  | nil => rfl
  | cons e rest ih => simp [ih]

/-- Witness for C2: the spec scenario pending = (3 maps to 5, 7 maps to 2)
produces a single request carrying exactly those two pairs in order. -/
theorem catalogo_saveAll_single_batch_witness :
    (catalogoSaveAll [(3, 5), (7, 2)]).length = 1 ∧
    (∀ r ∈ catalogoSaveAll [(3, 5), (7, 2)], r.changes = [(3, 5), (7, 2)]) :=
  catalogo_saveAll_single_batch [(3, 5), (7, 2)] (by decide)

/-- Counterexample to C2 as stated: the inventario.tsx commit handler on
pending = (3 maps to 5, 7 maps to 2) issues two write requests, not one. -/
theorem inventario_saveAll_two_requests :
    (inventarioSaveAll [(3, 5), (7, 2)]).length = 2 ∧
    inventarioSaveAll [(3, 5), (7, 2)] = [⟨[(3, 5)]⟩, ⟨[(7, 2)]⟩] ∧
    (2 : Nat) ≠ 1 := by
  refine ⟨rfl, rfl, by decide⟩

/-!  The JS parseInt coercion used by the quick-edit inputs and by the
server actions, modelled for decimal text: leading whitespace is skipped,
an optional sign is read, then the longest digit prefix; a missing digit
prefix yields NaN, embedded as none.  The 0x hexadecimal autodetection of
parseInt is not modelled because the embedded call sites parse quantity
and identifier fields, which are decimal. -/

/-- Accumulates the longest leading run of decimal digits. -/
def parseDigits : List Char → Nat → Nat
  | [], acc => acc
  | c :: rest, acc =>
    if c.isDigit then parseDigits rest (acc * 10 + (c.toNat - 48)) else acc

/-- True when the text starts with a decimal digit. -/
def hasLeadingDigit : List Char → Bool
  | [] => false
  | c :: _ => c.isDigit

/-- parseInt on a character list: sign handling plus digit prefix. -/
def jsParseIntChars (cs : List Char) : Option Int :=
  match cs.dropWhile (fun c => c.isWhitespace) with
  | '-' :: rest =>
    if hasLeadingDigit rest then some (-(parseDigits rest 0 : Int)) else none
  | '+' :: rest =>
    if hasLeadingDigit rest then some ((parseDigits rest 0 : Int)) else none
  | rest =>
    if hasLeadingDigit rest then some ((parseDigits rest 0 : Int)) else none

/-- JS parseInt(text) with NaN embedded as none. -/
def jsParseInt (s : String) : Option Int :=
  jsParseIntChars s.toList

/-- The coercion `parseInt(text) || 0` of the quick-edit onChange handlers:
NaN (and zero itself) falls through to 0; any other integer is kept. -/
def jsParseIntOr0 (s : String) : Int :=
  (jsParseInt s).getD 0

/-- The onChange handler of the inventario.tsx quantity input:
`handleQuickEdit(product.id, parseInt(e.target.value) || 0)`. -/
def quickEditOnChange (s : InventarioState) (productId : Nat) (text : String) :
    InventarioState :=
  handleQuickEdit s productId (jsParseIntOr0 text)

/-- The onChange handler of the catalogo.tsx quantity input:
`handleInputChange(product.id, parseInt(e.target.value) || 0)`. -/
def inputOnChange (s : CatalogoState) (productId : Nat) (text : String) :
    CatalogoState :=
  handleInputChange s productId (jsParseIntOr0 text)

/-!  Server actions and the client reaction to the fetcher response. -/

/-- Outcome of one upsert issued to the persistence collaborator. -/
inductive WriteResult where
  | ok
  | fail (msg : String)
deriving DecidableEq

/-- One row handed to the inventario upsert: product_id and cantidad as
parsed by parseInt (none embeds NaN). -/
structure UpsertRow where
  product_id : Option Int
  cantidad : Option Int
deriving DecidableEq

/-- The JSON body a route action returns: whether it carries a success
field, its optional error message, and the HTTP status. -/
structure ActionResponse where
  success : Bool
  error : Option String
  status : Nat
deriving DecidableEq

/-- The action of inventario.tsx, after form decoding: when both form
fields are present and productId is truthy, it issues one upsert with the
parseInt of each field; a failing upsert is answered with the error
message and status 400, otherwise with success.  When a field is missing
(or productId is the empty string) no upsert is issued and the action
still answers success.  The returned list holds the issued upserts. -/
def inventarioAction (productId newCantidad : Option String)
    (upsert : WriteResult) : ActionResponse × List UpsertRow :=
  match productId, newCantidad with
  | some pid, some c =>
    if pid = "" then ({ success := true, error := none, status := 200 }, [])
    else
      let row : UpsertRow := ⟨jsParseInt pid, jsParseInt c⟩
      match upsert with
      | .ok => ({ success := true, error := none, status := 200 }, [row])
      | .fail msg => ({ success := false, error := some msg, status := 400 }, [row])
  | _, _ => ({ success := true, error := none, status := 200 }, [])

/-- The action of catalogo.tsx on a decoded changes array: it awaits one
upsert per change but discards every upsert result (the source never
destructures the returned error), so the response is success regardless of
the outcomes passed in ` results`.  The returned list holds the issued
upserts. -/
def catalogoAction (changes : List (Nat × Int)) ( results : List WriteResult) :
    ActionResponse × List UpsertRow :=
  ({ success := true, error := none, status := 200 },
   changes.map (fun c => ⟨some (c.1 : Int), some c.2⟩))

/-- The fetcher-completion effect of inventario.tsx: when the response
body has a success field the pending ledger is cleared (followed by a
revalidation); otherwise the state is untouched. -/
def inventarioOnFetcherDone (s : InventarioState) (resp : ActionResponse) :
    InventarioState :=
  if resp.success then { s with pendingChanges := [] } else s

/-- The post-save effect of catalogo.tsx: when the submission finished
with a success response, inputValues is reinitialized from the loader
products and the pending ledger is cleared; otherwise nothing changes. -/
def catalogoOnSaveDone (s : CatalogoState) (resp : ActionResponse) :
    CatalogoState :=
  if resp.success then
    { s with
      inputValues := seedInputValues s.products
      pendingChanges := [] }
  else s

/-- The products-change effect of catalogo.tsx: a fresh loader baseline
replaces the products; inputValues is reseeded from it only when the
pending ledger is empty, so in-flight edits are never overwritten. -/
def catalogoOnProductsRefetch (s : CatalogoState) (fresh : List ProductRow) :
    CatalogoState :=
  if s.pendingChanges = [] then
    { products := fresh
      inputValues := seedInputValues fresh
      pendingChanges := [] }
  else
    { s with products := fresh }

/-- C3 (amended): for the inventario.tsx single-upsert action, a failing
write is answered with the error message and status 400, and the
fetcher-completion effect leaves the client state (pending map, hence
every displayed value) exactly as it was before the attempt.  (The
catalogo.tsx batch action discards write failures; see the
counterexample.) -/
theorem inventario_failed_commit_preserves_edits (s : InventarioState)
    (pid c msg : String) (hpid : pid ≠ "") :
    (inventarioAction (some pid) (some c) (.fail msg)).1.error = some msg ∧
    (inventarioAction (some pid) (some c) (.fail msg)).1.status = 400 ∧
    inventarioOnFetcherDone s
        (inventarioAction (some pid) (some c) (.fail msg)).1 = s ∧
    ∀ p ∈ s.products,
      displayedValueQuick
          (inventarioOnFetcherDone s
            (inventarioAction (some pid) (some c) (.fail msg)).1) p
        = displayedValueQuick s p := by
  have hresp : (inventarioAction (some pid) (some c) (.fail msg)).1
      = { success := false, error := some msg, status := 400 } := by
    simp [inventarioAction, hpid]
  have hkeep : inventarioOnFetcherDone s
      (inventarioAction (some pid) (some c) (.fail msg)).1 = s := by
    rw [hresp]
    simp [inventarioOnFetcherDone]
  refine ⟨by rw [hresp], by rw [hresp], hkeep, ?_⟩
  intro p hp
  rw [hkeep]

/-- Witness for C3: the amended statement at the spec scenario, product 5
edited from 9 to 12 and the write failing. -/
theorem inventario_failed_commit_preserves_edits_witness :
    (inventarioAction (some "5") (some "12") (.fail "boom")).1.error
        = some "boom" ∧
    (inventarioAction (some "5") (some "12") (.fail "boom")).1.status = 400 ∧
    inventarioOnFetcherDone ⟨[⟨5, none, none, 9⟩], [(5, 12)]⟩
        (inventarioAction (some "5") (some "12") (.fail "boom")).1
      = ⟨[⟨5, none, none, 9⟩], [(5, 12)]⟩ ∧
    ∀ p ∈ (⟨[⟨5, none, none, 9⟩], [(5, 12)]⟩ : InventarioState).products,
      displayedValueQuick
          (inventarioOnFetcherDone ⟨[⟨5, none, none, 9⟩], [(5, 12)]⟩
            (inventarioAction (some "5") (some "12") (.fail "boom")).1) p
        = displayedValueQuick ⟨[⟨5, none, none, 9⟩], [(5, 12)]⟩ p :=
  inventario_failed_commit_preserves_edits _ "5" "12" "boom" (by decide)

/-- Counterexample to C3 as stated: in catalogo.tsx a batch whose only
upsert fails is still answered success with no error, and the post-save
effect then clears the pending map, so pending after the failed attempt
differs from pending before it and no failure reaches the caller. -/
theorem catalogo_failed_write_loses_edits :
    (catalogoAction [(1, 7)] [.fail "db error"]).1.error = none ∧
    (catalogoAction [(1, 7)] [.fail "db error"]).1.success = true ∧
    (catalogoOnSaveDone ⟨[⟨1, none, none, 5⟩], [(1, 7)], [(1, 7)]⟩
        (catalogoAction [(1, 7)] [.fail "db error"]).1).pendingChanges = [] ∧
    (⟨[⟨1, none, none, 5⟩], [(1, 7)], [(1, 7)]⟩ : CatalogoState).pendingChanges
      = [(1, 7)] ∧
    ([(1, 7)] : List (Nat × Int)) ≠ [] := by
  refine ⟨rfl, rfl, rfl, rfl, by decide⟩

/-- C4: after a successful commit response, the catalogo.tsx post-save
effect empties the pending map and renders every product at its baseline;
once the follow-up revalidation delivers a fresh baseline the rendered
values equal that new baseline.  The inventario.tsx success effect also
empties the pending map and renders baselines. -/
theorem commit_clears_ledger (s : CatalogoState) (t : InventarioState)
    (resp : ActionResponse) (fresh : List ProductRow)
    (hnodup : (s.products.map (fun q => q.id)).Nodup)
    (hfresh : (fresh.map (fun q => q.id)).Nodup)
    (hs : resp.success = true) :
    (catalogoOnSaveDone s resp).pendingChanges = [] ∧
    (∀ p ∈ s.products, displayedValue (catalogoOnSaveDone s resp) p = p.cantidad) ∧
    (∀ p ∈ fresh,
      displayedValue
          (catalogoOnProductsRefetch (catalogoOnSaveDone s resp) fresh) p
        = p.cantidad) ∧
    (inventarioOnFetcherDone t resp).pendingChanges = [] ∧
    (∀ p ∈ t.products,
      displayedValueQuick (inventarioOnFetcherDone t resp) p = p.cantidad) := by
  have hdone : catalogoOnSaveDone s resp
      = { s with
          inputValues := seedInputValues s.products
          pendingChanges := [] } := by
    simp [catalogoOnSaveDone, hs]
  have hrefetch : catalogoOnProductsRefetch (catalogoOnSaveDone s resp) fresh
      = { products := fresh
          inputValues := seedInputValues fresh
          pendingChanges := [] } := by
    rw [hdone]
    simp [catalogoOnProductsRefetch]
  refine ⟨by rw [hdone], ?_, ?_, ?_, ?_⟩
  · intro p hp
    rw [hdone]
    show (objGet (seedInputValues s.products) p.id).getD p.cantidad = p.cantidad
    rw [objGet_seed s.products p hnodup hp]
    rfl
  · intro p hp
    rw [hrefetch]
    show (objGet (seedInputValues fresh) p.id).getD p.cantidad = p.cantidad
    rw [objGet_seed fresh p hfresh hp]
    rfl
  · simp [inventarioOnFetcherDone, hs]
  · intro p hp
    simp [inventarioOnFetcherDone, hs, displayedValueQuick, objGet]

/-- Witness for C4: the commit-clears-ledger statement on a concrete
edited ledger, a success response and a fresh one-product baseline. -/
theorem commit_clears_ledger_witness :
    (catalogoOnSaveDone ⟨[⟨1, none, none, 5⟩], [(1, 7)], [(1, 7)]⟩
        ⟨true, none, 200⟩).pendingChanges = [] ∧
    (∀ p ∈ (⟨[⟨1, none, none, 5⟩], [(1, 7)], [(1, 7)]⟩ : CatalogoState).products,
      displayedValue (catalogoOnSaveDone ⟨[⟨1, none, none, 5⟩], [(1, 7)], [(1, 7)]⟩
        ⟨true, none, 200⟩) p = p.cantidad) ∧
    (∀ p ∈ ([⟨1, none, none, 7⟩] : List ProductRow),
      displayedValue
          (catalogoOnProductsRefetch
            (catalogoOnSaveDone ⟨[⟨1, none, none, 5⟩], [(1, 7)], [(1, 7)]⟩
              ⟨true, none, 200⟩) [⟨1, none, none, 7⟩]) p
        = p.cantidad) ∧
    (inventarioOnFetcherDone ⟨[⟨1, none, none, 5⟩], [(1, 7)]⟩
        ⟨true, none, 200⟩).pendingChanges = [] ∧
    (∀ p ∈ (⟨[⟨1, none, none, 5⟩], [(1, 7)]⟩ : InventarioState).products,
      displayedValueQuick (inventarioOnFetcherDone ⟨[⟨1, none, none, 5⟩], [(1, 7)]⟩
        ⟨true, none, 200⟩) p = p.cantidad) :=
  commit_clears_ledger _ _ _ _ (by decide) (by decide) (by decide)

/-- C5: when a fresh baseline arrives while the pending map is non-empty,
the catalogo.tsx products effect keeps inputValues and pendingChanges
untouched — in particular every edited row keeps its typed value on
screen — and the rendered values are reseeded from the fresh baseline only
when the pending map is empty. -/
theorem refetch_non_clobber (s : CatalogoState) (fresh : List ProductRow) :
    (s.pendingChanges ≠ [] →
      (catalogoOnProductsRefetch s fresh).inputValues = s.inputValues ∧
      (catalogoOnProductsRefetch s fresh).pendingChanges = s.pendingChanges ∧
      ∀ p ∈ fresh, ∀ v : Int, objGet s.inputValues p.id = some v →
        displayedValue (catalogoOnProductsRefetch s fresh) p = v) ∧
    (s.pendingChanges = [] →
      (catalogoOnProductsRefetch s fresh).inputValues = seedInputValues fresh ∧
      (catalogoOnProductsRefetch s fresh).pendingChanges = []) := by
  constructor
  · intro hne
    have h : catalogoOnProductsRefetch s fresh = { s with products := fresh } := by
      simp [catalogoOnProductsRefetch, hne]
    refine ⟨by rw [h], by rw [h], ?_⟩
    intro p hp v hv
    rw [h]
    show (objGet s.inputValues p.id).getD p.cantidad = v
    rw [hv]
    rfl
  · intro hemp
    have h : catalogoOnProductsRefetch s fresh
        = ⟨fresh, seedInputValues fresh, []⟩ := by
      simp [catalogoOnProductsRefetch, hemp]
    exact ⟨by rw [h], by rw [h]⟩

/-- Witness for C5: the spec scenario.  Product 5 is edited to 12 while
the server still reports 9; the background refresh keeps the typed 12 on
screen and the pending entry intact. -/
theorem refetch_non_clobber_witness :
    (catalogoOnProductsRefetch ⟨[⟨5, none, none, 7⟩], [(5, 12)], [(5, 12)]⟩
        [⟨5, none, none, 9⟩]).inputValues = [(5, 12)] ∧
    (catalogoOnProductsRefetch ⟨[⟨5, none, none, 7⟩], [(5, 12)], [(5, 12)]⟩
        [⟨5, none, none, 9⟩]).pendingChanges = [(5, 12)] ∧
    displayedValue
        (catalogoOnProductsRefetch ⟨[⟨5, none, none, 7⟩], [(5, 12)], [(5, 12)]⟩
          [⟨5, none, none, 9⟩]) ⟨5, none, none, 9⟩ = 12 := by
  have h := (refetch_non_clobber ⟨[⟨5, none, none, 7⟩], [(5, 12)], [(5, 12)]⟩
    [⟨5, none, none, 9⟩]).1 (by decide)
  exact ⟨h.1, h.2.1, h.2.2 ⟨5, none, none, 9⟩ (by decide) 12 (by decide)⟩

/-!  The ledger/commit protocol as a state machine over discrete events
(spec section 9 names them valueChanged, commitRequested, commitSucceeded,
commitFailed, baselineRefreshed).  The save affordance of catalogo.tsx and
inventario.tsx is rendered only while the pending map is non-empty and is
disabled while a submission is outstanding, which is the guard of
commitRequested below. -/

/-- Discrete events driving the ledger/commit interaction. -/
inductive LedgerEvent where
  | valueChanged (productId : Nat) (newValue : Int)
  | commitRequested
  | commitSucceeded
  | commitFailed
  | baselineRefreshed (fresh : List ProductRow)

/-- The ledger together with the number of batch submissions in flight
(isSubmitting of the source is this count being nonzero). -/
structure CommitSession where
  ledger : CatalogoState
  inFlight : Nat

/-- One step of the commit protocol.  A commitRequested event starts a
submission only when nothing is in flight and something is pending (the
save button is otherwise absent or disabled); completion events resolve
one outstanding submission, applying the post-save effect on success. -/
def commitStep (s : CommitSession) : LedgerEvent → CommitSession
  | .valueChanged productId newValue =>
    { s with ledger := handleInputChange s.ledger productId newValue }
  | .commitRequested =>
    if s.inFlight = 0 ∧ s.ledger.pendingChanges ≠ [] then
      { s with inFlight := s.inFlight + 1 }
    else s
  | .commitSucceeded =>
    if s.inFlight ≠ 0 then
      { ledger := catalogoOnSaveDone s.ledger ⟨true, none, 200⟩
        inFlight := s.inFlight - 1 }
    else s
  | .commitFailed =>
    if s.inFlight ≠ 0 then { s with inFlight := s.inFlight - 1 } else s
  | .baselineRefreshed fresh =>
    { s with ledger := catalogoOnProductsRefetch s.ledger fresh }

/-- A whole event trace, folded left to right. -/
def runEvents (s : CommitSession) (evs : List LedgerEvent) : CommitSession :=
  evs.foldl commitStep s

theorem commitStep_inFlight_le (s : CommitSession) (e : LedgerEvent)
    (h : s.inFlight ≤ 1) : (commitStep s e).inFlight ≤ 1 := by
  cases e with
  | valueChanged productId newValue => exact h
  | commitRequested =>
    simp only [commitStep]
    split
    · next hcond =>
      show s.inFlight + 1 ≤ 1
      omega
    · exact h
  | commitSucceeded =>
    simp only [commitStep]
    split
    · show s.inFlight - 1 ≤ 1
      omega
    · exact h
  | commitFailed =>
    simp only [commitStep]
    split
    · show s.inFlight - 1 ≤ 1
      omega
    · exact h
  | baselineRefreshed fresh => exact h

/-- C6: from any session with at most one submission outstanding, every
event trace keeps at most one submission outstanding, and a
commitRequested event arriving while a submission is in flight is
rejected: it leaves the session unchanged, so no second batch is ever
interleaved with the first. -/
theorem single_outstanding_commit (s : CommitSession) (evs : List LedgerEvent)
    (h : s.inFlight ≤ 1) :
    (runEvents s evs).inFlight ≤ 1 ∧
    ∀ t : CommitSession, t.inFlight ≠ 0 → commitStep t .commitRequested = t := by
  constructor
  · induction evs generalizing s with
    | nil => exact h
    | cons e rest ih => exact ih (commitStep s e) (commitStep_inFlight_le s e h)
  · intro t ht
    simp only [commitStep]
    rw [if_neg (fun hc => ht hc.1)]

/-- Witness for C6: a concrete trace with a double commit click keeps the
in-flight count at most one, and a commit request against a session with
one submission outstanding is a no-op. -/
theorem single_outstanding_commit_witness :
    (runEvents ⟨⟨[⟨1, none, none, 5⟩], [(1, 5)], []⟩, 0⟩
        [.valueChanged 1 7, .commitRequested, .commitRequested,
          .commitSucceeded]).inFlight ≤ 1 ∧
    commitStep ⟨⟨[⟨1, none, none, 5⟩], [(1, 7)], [(1, 7)]⟩, 1⟩ .commitRequested
      = ⟨⟨[⟨1, none, none, 5⟩], [(1, 7)], [(1, 7)]⟩, 1⟩ :=
  ⟨(single_outstanding_commit ⟨⟨[⟨1, none, none, 5⟩], [(1, 5)], []⟩, 0⟩
      [.valueChanged 1 7, .commitRequested, .commitRequested,
        .commitSucceeded] (by decide)).1,
    (single_outstanding_commit ⟨⟨[⟨1, none, none, 5⟩], [(1, 7)], [(1, 7)]⟩, 1⟩
      [] (by decide)).2 _ (by decide)⟩

/-!  The filter-URL synchronizer shared by inventario.tsx and
productos.tsx. -/

/-- The two URL query parameters the synchronizer manages; an absent
parameter is none (URLSearchParams.get returns null, which the source
coalesces to the empty string when comparing). -/
structure UrlParams where
  search : Option String
  color : Option String
deriving DecidableEq

/-- The candidate parameter set of the URL-sync effect: a truthy (non
empty) debounced value is set on the copied parameters, a falsy one
deletes the parameter entirely. -/
def candidateParams (sp : UrlParams) (debouncedSearch debouncedColor : String) :
    UrlParams :=
  { search := if debouncedSearch ≠ "" then some debouncedSearch else none
    color := if debouncedColor ≠ "" then some debouncedColor else none }

/-- The URL-sync effect: it issues a history-replacing navigation to the
candidate parameters exactly when one of the two debounced values differs
from what the current URL encodes; otherwise no navigation is issued
(none). -/
def urlSyncEffect (sp : UrlParams) (debouncedSearch debouncedColor : String) :
    Option UrlParams :=
  if debouncedSearch ≠ sp.search.getD "" ∨ debouncedColor ≠ sp.color.getD "" then
    some (candidateParams sp debouncedSearch debouncedColor)
  else none

/-- C7: for every pair of debounced filter values and current URL
parameters, the candidate parameter set omits a managed parameter exactly
when its value is empty, and a history-replacing navigation is issued if
and only if at least one of the two fields differs from what the URL
currently encodes. -/
theorem filter_url_sync (sp : UrlParams) (ds dc : String) :
    ((candidateParams sp ds dc).search = none ↔ ds = "") ∧
    ((candidateParams sp ds dc).color = none ↔ dc = "") ∧
    ((urlSyncEffect sp ds dc).isSome ↔
      (ds ≠ sp.search.getD "" ∨ dc ≠ sp.color.getD "")) := by
  refine ⟨?_, ?_, ?_⟩
  · by_cases h : ds = "" <;> simp [candidateParams, h]
  · by_cases h : dc = "" <;> simp [candidateParams, h]
  · unfold urlSyncEffect
    split
    · next hc => simp [hc]
    · next hc => simp [hc]

/-!  Validation of write requests: the login action of the productos.tsx
bundle and the inventario.tsx upsert action. -/

/-- Outcome of the signInWithPassword call. -/
inductive AuthOutcome where
  | ok
  | fail (msg : String)
deriving DecidableEq

/-- What the login action returns to the browser. -/
inductive LoginResult where
  | inlineError (msg : String) (status : Nat)
  | sessionRedirect
deriving DecidableEq

/-- JS truthiness test on a form field: null and the empty string are
falsy. -/
def strFalsy : Option String → Bool
  | none => true
  | some s => s == ""

/-- The login action: a missing or empty email or password is answered
with the inline message and status 400 before any authentication call;
otherwise one signInWithPassword call is issued, whose failure becomes an
inline 401 and whose success becomes the session redirect.  The second
component counts the issued authentication calls. -/
def loginAction (email password : Option String) (auth : AuthOutcome) :
    LoginResult × Nat :=
  if strFalsy email || strFalsy password then
    (.inlineError "Por favor, completa todos los campos." 400, 0)
  else
    match auth with
    | .fail msg => (.inlineError msg 401, 1)
    | .ok => (.sessionRedirect, 1)

/-- C8 (amended): a write request with a missing required field performs
no persistence or authentication call in either action; the login action
surfaces the inline validation message, while the inventario action
answers success with no error message, so only the login path surfaces
the validation failure to the user. -/
theorem validation_aborts_before_write (email password : Option String)
    (auth : AuthOutcome) (pid c : Option String) (u : WriteResult)
    (hlogin : strFalsy email = true ∨ strFalsy password = true)
    (hinv : pid = none ∨ pid = some "" ∨ c = none) :
    loginAction email password auth
      = (.inlineError "Por favor, completa todos los campos." 400, 0) ∧
    (inventarioAction pid c u).2 = [] ∧
    (inventarioAction pid c u).1.error = none := by
  have hb : (strFalsy email || strFalsy password) = true := by
    rcases hlogin with h | h <;> simp [h]
  refine ⟨by simp [loginAction, hb], ?_, ?_⟩
  · rcases hinv with rfl | rfl | rfl
    · cases c <;> simp [inventarioAction]
    · cases c <;> simp [inventarioAction]
    · cases pid <;> simp [inventarioAction]
  · rcases hinv with rfl | rfl | rfl
    · cases c <;> simp [inventarioAction]
    · cases c <;> simp [inventarioAction]
    · cases pid <;> simp [inventarioAction]

/-- Witness for C8: an empty email and a request missing its productId
field, with the backend available. -/
theorem validation_aborts_before_write_witness :
    loginAction (some "") (some "secret") .ok
      = (.inlineError "Por favor, completa todos los campos." 400, 0) ∧
    (inventarioAction (some "") (some "5") .ok).2 = [] ∧
    (inventarioAction (some "") (some "5") .ok).1.error = none :=
  validation_aborts_before_write (some "") (some "secret") .ok (some "")
    (some "5") .ok (Or.inl (by decide)) (Or.inr (Or.inl rfl))

/-- Counterexample to C8 as stated: the inventario.tsx action given a
request whose productId field is missing performs no write but answers
success with no error message, so no user-visible inline error is
returned to the caller. -/
theorem missing_field_yields_silent_success :
    (inventarioAction none (some "5") .ok).1.error = none ∧
    (inventarioAction none (some "5") .ok).1.success = true ∧
    (inventarioAction none (some "5") .ok).2 = [] :=
  ⟨rfl, rfl, rfl⟩

/-- C9 evaluated at the failing input: typing "-5" into a quantity input
is coerced by the onChange handler to the negative integer -5, recorded in
the pending map by the quick-edit handler, and written as cantidad -5 by
the upsert action.  The non-negativity invariant is not enforced anywhere
on that path (the input element only declares min 0, which does not
constrain typed text). -/
theorem negative_quantity_recorded_and_written :
    jsParseIntOr0 "-5" = -5 ∧
    objGet (quickEditOnChange ⟨[⟨1, none, none, 5⟩], []⟩ 1 "-5").pendingChanges 1
      = some (-5) ∧
    (inventarioAction (some "1") (some "-5") .ok).2 = [⟨some 1, some (-5)⟩] ∧
    (-5 : Int) < 0 := by
  refine ⟨by decide, by decide, by decide, by decide⟩

/-- C10: a quick-edit input event whose text does not parse as an integer
(empty string or non-numeric text) is coerced to 0 by parseInt-or-zero and
recorded: the inventario.tsx handler stores 0 in the pending map and the
catalogo.tsx handler stores 0 in the rendered values — the event is
neither rejected nor does it keep the previous value in place. -/
theorem unparsable_input_records_zero (s : InventarioState) (t : CatalogoState)
    (productId : Nat) (text : String) (h : jsParseInt text = none) :
    objGet (quickEditOnChange s productId text).pendingChanges productId
      = some 0 ∧
    objGet (inputOnChange t productId text).inputValues productId = some 0 := by
  have h0 : jsParseIntOr0 text = 0 := by simp [jsParseIntOr0, h]
  constructor
  · show objGet (objInsert s.pendingChanges productId (jsParseIntOr0 text))
      productId = some 0
    rw [h0, objGet_insert_self]
  · show objGet (objInsert t.inputValues productId (jsParseIntOr0 text))
      productId = some 0
    rw [h0, objGet_insert_self]

/-- Witness for C10: the non-numeric text abc, which parseInt rejects, is
recorded as quantity 0 by both handlers. -/
theorem unparsable_input_records_zero_witness :
    jsParseInt "abc" = none ∧
    objGet (quickEditOnChange ⟨[⟨1, none, none, 5⟩], []⟩ 1 "abc").pendingChanges 1
      = some 0 ∧
    objGet (inputOnChange ⟨[⟨1, none, none, 5⟩], [(1, 5)], []⟩ 1 "abc").inputValues 1
      = some 0 :=
  ⟨by decide,
    (unparsable_input_records_zero ⟨[⟨1, none, none, 5⟩], []⟩
      ⟨[⟨1, none, none, 5⟩], [(1, 5)], []⟩ 1 "abc" (by decide)).1,
    (unparsable_input_records_zero ⟨[⟨1, none, none, 5⟩], []⟩
      ⟨[⟨1, none, none, 5⟩], [(1, 5)], []⟩ 1 "abc" (by decide)).2⟩

end Cash
